import Mathlib

/-!
# PTZ-Camera-Animator: formal model of the codec and motion core

A shallow embedding of the value codec, position interpolator, command
builder and animation driver of `move.py` (the VISCA-over-IP camera
animation script).  Python machine-level behaviour is modelled as follows:
Python `int` becomes `ℤ`, Python `float` arithmetic becomes exact `ℚ`
arithmetic, Python exceptions become `Option`/`Except` error values, and
the network transport becomes an explicit failure oracle.
-/

namespace PTZ

/-! ## Value codec (`move.py` lines 85-98) -/

/-- Value of one hexadecimal character, as accepted by Python's
`bytes.fromhex`; `none` for a non-hex character. -/
def hexVal (c : Char) : Option Nat :=
  if '0' ≤ c ∧ c ≤ '9' then some (c.toNat - '0'.toNat)
  else if 'a' ≤ c ∧ c ≤ 'f' then some (c.toNat - 'a'.toNat + 10)
  else if 'A' ≤ c ∧ c ≤ 'F' then some (c.toNat - 'A'.toNat + 10)
  else none

/-- Lowercase hex digit of a nibble value (`n < 16`), as produced by
Python's `bytes.hex` and `to_bytes(..).hex()`. -/
def nibbleChar (n : Nat) : Char :=
  if n < 10 then Char.ofNat ('0'.toNat + n) else Char.ofNat ('a'.toNat + n - 10)

/-- Parse a list of characters as hex nibble values; `none` as soon as a
non-hex character appears.  This is the whitespace-free fragment of
`bytes.fromhex`; it also models the digit-by-digit reading inside each byte
pair. -/
def parseHexList : List Char → Option (List Nat)
  | [] => some []
  | c :: cs => (hexVal c).bind (fun n => (parseHexList cs).map (fun ns => n :: ns))

/-- The ASCII whitespace characters `bytes.fromhex` skips between byte
pairs (CPython `Py_ISSPACE`): space, tab, newline, vertical tab, form feed,
carriage return. -/
def pyWhitespace (c : Char) : Bool :=
  c == ' ' || c == '\t' || c == '\n' || c == '\x0b' || c == '\x0c' || c == '\r'

/-- Python `bytes.fromhex` (CPython >= 3.7), returning the nibble-value
list of the parsed bytes: ASCII whitespace before a byte pair is skipped;
each byte is two consecutive hex digits with nothing between them; any
other character, or a dangling single digit, raises `ValueError`. -/
def fromhexNibbles : List Char → Option (List Nat)
  | [] => some []
  | [c] => if pyWhitespace c then some [] else none
  | c :: c2 :: rest =>
    if pyWhitespace c then fromhexNibbles (c2 :: rest)
    else
      (hexVal c).bind (fun hi =>
        (hexVal c2).bind (fun lo =>
          (fromhexNibbles rest).map (fun ns => hi :: lo :: ns)))

/-- The characters of a string with every space removed
(Python `str.replace(' ', '')`). -/
def stripSpaces (s : String) : List Char := s.toList.filter (fun c => c ≠ ' ')

/-- Elements at the odd indices 1, 3, 5, ... of a list
(Python slice `[1::2]`). -/
def oddIndexed : List α → List α
  | [] => []
  | [_] => []
  | _ :: b :: rest => b :: oddIndexed rest

/-- Big-endian value of a list of nibbles. -/
def nibblesVal (ns : List Nat) : Nat := ns.foldl (fun acc d => 16 * acc + d) 0

/-- Python `int.from_bytes(bytes, 'big', signed=True)`, with the byte string
given by its even-length list of nibbles. -/
def fromBytesSignedBE (ns : List Nat) : Int :=
  let n : Int := (nibblesVal ns : Int)
  let M : Int := 2 ^ (4 * ns.length)
  if 2 * n < M then n else n - M

/-- `decode` from `move.py`: strip spaces, parse with `bytes.fromhex`
(which skips remaining ASCII whitespace between byte pairs and fails on
anything else), drop every even-indexed nibble of the re-hexed byte string,
parse the kept nibbles as bytes again (failing when their count is odd —
they are pure hex digits, so the second `fromhex` only checks pairing), and
read the result as a big-endian signed integer. -/
def decode (zero_padded : String) : Option Int :=
  match fromhexNibbles (stripSpaces zero_padded) with
  | none => none
  | some nibs =>
    let kept := oddIndexed nibs
    if kept.length % 2 = 0 then some (fromBytesSignedBE kept) else none

/-- The string built by `encode` in `move.py` for an in-range value: the two
bytes of the big-endian two's-complement representation are rendered as four
hex digits, and each digit becomes a ' '-separated group prefixed by '0'. -/
def encodeRaw (v : Int) : String :=
  let u := (v % 65536).toNat
  let b0 := u / 256
  let b1 := u % 256
  let pos_hex := [nibbleChar (b0 / 16), nibbleChar (b0 % 16),
                  nibbleChar (b1 / 16), nibbleChar (b1 % 16)]
  String.intercalate " " (pos_hex.map (fun c => String.mk [ '0', c]))

/-- `encode` from `move.py`; `none` models the `OverflowError` that
`int.to_bytes(2, 'big', signed=True)` raises outside the signed 16-bit
range. -/
def encode (v : Int) : Option String :=
  if v < -32768 ∨ 32767 < v then none else some (encodeRaw v)

/-! ## Positions, errors and numeric truncation -/

/-- A PTZ position as stored and passed around by `move.py`: three
protocol-encoded axis strings. -/
structure Position where
  pan : String
  tilt : String
  zoom : String
deriving DecidableEq, Repr

/-- The Python exceptions that the core of `move.py` can raise:
`ValueError` from `bytes.fromhex` (malformed codec input), `OverflowError`
from `int.to_bytes` (value outside 16-bit signed range), `ZeroDivisionError`
from the per-step distance computation, and `ValueError` from the speed
range check in `move_camera`. -/
inductive Err where
  | formatErr
  | overflowErr
  | divZero
  | rangeErr
deriving DecidableEq, Repr

/-- Lift an optional value into `Except`, tagging the failure. -/
def ofOption (e : Err) : Option α → Except Err α
  | none => .error e
  | some a => .ok a

instance {ε α : Type} [DecidableEq ε] [DecidableEq α] : DecidableEq (Except ε α) := fun x y =>
  match x, y with
  | .error a, .error b =>
    if h : a = b then .isTrue (by rw [h]) else .isFalse (by intro hc; cases hc; exact h rfl)
  | .ok a, .ok b =>
    if h : a = b then .isTrue (by rw [h]) else .isFalse (by intro hc; cases hc; exact h rfl)
  | .error _, .ok _ => .isFalse (by intro hc; cases hc)
  | .ok _, .error _ => .isFalse (by intro hc; cases hc)

/-- Python `int(x)` on a real number: truncation toward zero. -/
def truncInt (q : ℚ) : Int := if 0 ≤ q then ⌊q⌋ else ⌈q⌉

/-! ## Interpolator (`move.py` lines 100-129) -/

/-- The nested `linear_interpolation` helper of `interpolate_positions`. -/
def linear_interpolation (start stop t : ℚ) : ℚ := start + (stop - start) * t

/-- `interpolate_positions` from `move.py`: decode the six axis strings,
linearly interpolate each axis at progress `step`, truncate toward zero
(Python `int(...)`), and re-encode. -/
def interpolate_positions (start stop : Position) (step : ℚ) : Except Err Position := do
  let start_pan_int ← ofOption .formatErr (decode start.pan)
  let start_tilt_int ← ofOption .formatErr (decode start.tilt)
  let start_zoom_int ← ofOption .formatErr (decode start.zoom)
  let end_pan_int ← ofOption .formatErr (decode stop.pan)
  let end_tilt_int ← ofOption .formatErr (decode stop.tilt)
  let end_zoom_int ← ofOption .formatErr (decode stop.zoom)
  let intermediate_pan := truncInt (linear_interpolation start_pan_int end_pan_int step)
  let intermediate_tilt := truncInt (linear_interpolation start_tilt_int end_tilt_int step)
  let intermediate_zoom := truncInt (linear_interpolation start_zoom_int end_zoom_int step)
  let p ← ofOption .overflowErr (encode intermediate_pan)
  let t ← ofOption .overflowErr (encode intermediate_tilt)
  let z ← ofOption .overflowErr (encode intermediate_zoom)
  pure ⟨p, t, z⟩

/-! ## Command builder and per-step driver (`move.py` lines 46-83) -/

/-- Python `f'{n:02x}'` for `0 ≤ n < 256`: a two-digit lowercase hex
rendering. -/
def hex2 (n : Nat) : String := String.mk [nibbleChar (n / 16 % 16), nibbleChar (n % 16)]

/-- Which of the two `_send_command` calls of one `move_camera` invocation
run, and whether they succeed, for a given transport-failure oracle: a
failure of the first send skips the second (the `except` clause catches the
exception and the function returns normally either way). -/
def sentPattern (fail : Nat → Bool) : List Bool :=
  if fail 0 then [false] else if fail 1 then [true, false] else [true, true]

/-- The two command strings `move_camera` hands to `_send_command`:
`'0602' + pan_speed_hex + tilt_speed_hex + pan_position + tilt_position`,
then `'0447' + zoom_position`. -/
def cmdPair (position : Position) (ps ts : Int) : List String :=
  [ "0602" ++ hex2 ps.natAbs ++ hex2 ts.natAbs ++ position.pan ++ position.tilt,
    "0447" ++ position.zoom]

/-- `move_camera` from `move.py`: truncate both speeds to integers, raise
`ValueError` when either lies outside `[-24, 24]` (before anything is sent),
then build the two command strings and attempt the two sends; a transport
exception is caught and reported, never propagated. `fail k` says whether
the `k`-th send of this invocation fails. -/
def move_camera (fail : Nat → Bool) (position : Position) (pan_speed tilt_speed : ℚ) :
    Except Err (List String × List Bool) :=
  let ps := truncInt pan_speed
  let ts := truncInt tilt_speed
  if ¬ (-24 ≤ ps ∧ ps ≤ 24) then .error .rangeErr
  else if ¬ (-24 ≤ ts ∧ ts ≤ 24) then .error .rangeErr
  else .ok (cmdPair position ps ts, sentPattern fail)

/-! ## Animation driver (`move.py` lines 131-159) -/

/-- The observable record of one executed animation step: the progress
fraction, the interpolated position, the command strings built for it, and
the outcome of each attempted send. -/
structure StepRec where
  t : ℚ
  pos : Position
  cmds : List String
  sent : List Bool
deriving DecidableEq, Repr

/-- Python `range(n)` for an `int` argument: empty when `n ≤ 0`. -/
def pyRange (n : Int) : List Nat := List.range n.toNat

/-- Sequential execution of the per-step body over the step indices,
stopping at the first uncaught exception — the semantics of the `for` loop
in `animate_camera`. -/
def runSteps (F : Nat → Except Err StepRec) : List Nat → Except Err (List StepRec)
  | [] => .ok []
  | i :: is =>
    match F i with
    | .error e => .error e
    | .ok r =>
      match runSteps F is with
      | .error e => .error e
      | .ok rs => .ok (r :: rs)

/-- The speed expression of `animate_camera`:
`((distance_per_step / 10) * 24 * 2) - 24`. -/
def speed_formula (d : ℚ) : ℚ := d / 10 * 24 * 2 - 24

/-- `animate_camera` from `move.py`: `steps = int(seconds * 10)`; the
per-axis distance per step divides by `steps` (raising `ZeroDivisionError`
when it is zero); the two speeds come from `speed_formula`; then every
`step` in `range(steps + 1)` interpolates at `t = step / steps` and invokes
`move_camera`.  `fail step k` tells whether the `k`-th send of step `step`
fails at the transport. -/
def animate_camera (fail : Nat → Nat → Bool) (start stop : Position) (seconds : ℚ) :
    Except Err (List StepRec) := do
  let steps : Int := truncInt (seconds * 10)
  let start_pan ← ofOption .formatErr (decode start.pan)
  let end_pan ← ofOption .formatErr (decode stop.pan)
  if steps = 0 then .error .divZero else do
  let distance_per_step_pan : ℚ := |(start_pan : ℚ) - (end_pan : ℚ)| / (steps : ℚ)
  let start_tilt ← ofOption .formatErr (decode start.tilt)
  let end_tilt ← ofOption .formatErr (decode stop.tilt)
  let distance_per_step_tilt : ℚ := |(start_tilt : ℚ) - (end_tilt : ℚ)| / (steps : ℚ)
  let pan_speed := speed_formula distance_per_step_pan
  let tilt_speed := speed_formula distance_per_step_tilt
  runSteps
    (fun step => do
      let t : ℚ := (step : ℚ) / (steps : ℚ)
      let intermediate_pos ← interpolate_positions start stop t
      let log ← move_camera (fail step) intermediate_pos pan_speed tilt_speed
      pure ⟨t, intermediate_pos, log.1, log.2⟩)
    (pyRange (steps + 1))

/-- The integer value of one axis of the interpolated position. -/
def interpValue (s e : Int) (t : ℚ) : Int :=
  truncInt (linear_interpolation (s : ℚ) (e : ℚ) t)

/-- The position `interpolate_positions` returns, expressed through the six
decoded axis values. -/
def interpPos (sp ep st et sz ez : Int) (t : ℚ) : Position :=
  ⟨encodeRaw (interpValue sp ep t), encodeRaw (interpValue st et t),
   encodeRaw (interpValue sz ez t)⟩

/-- The per-step distance of one axis, as computed by `animate_camera`. -/
def distPerStep (s e steps : Int) : ℚ := |(s : ℚ) - (e : ℚ)| / (steps : ℚ)

/-- The record the driver produces for step `i` when both speeds pass the
range check: the progress fraction `i / steps`, the interpolated position,
the two command strings carrying the truncated speeds, and this step's send
outcomes. -/
def expectedStep (fail : Nat → Nat → Bool) (sp ep st et sz ez : Int) (steps : Int) (i : Nat) :
    StepRec :=
  let t : ℚ := (i : ℚ) / (steps : ℚ)
  { t := t
    pos := interpPos sp ep st et sz ez t
    cmds := cmdPair (interpPos sp ep st et sz ez t)
      (truncInt (speed_formula (distPerStep sp ep steps)))
      (truncInt (speed_formula (distPerStep st et steps)))
    sent := sentPattern (fail i) }

/-! ## Transport-failure independence of the driver -/

/-- Forget the transport outcomes of an executed step, keeping the progress
fraction, the interpolated position and the commands that were built. -/
def eraseSent (r : StepRec) : ℚ × Position × List String := (r.t, r.pos, r.cmds)

/-- The speed the specification claims is commanded (stated from the spec's
words, for comparison with the code): the formula value clamped to
`[-24, 24]` and rounded to the nearest integer.  The code has no clamp and
truncates instead of rounding. -/
def claimedSpeed (d : ℚ) : Int := round (min (24 : ℚ) (max (-24 : ℚ) (speed_formula d)))

/-! ## Concrete stored positions used to instantiate the theorems -/

/-- A sample stored position: pan 10, tilt -1, zoom 0. -/
def posA : Position := ⟨"00 00 00 0a", "0f 0f 0f 0f", "00 00 00 00"⟩

/-- A sample stored position: pan 0, tilt 5, zoom 256. -/
def posB : Position := ⟨"00 00 00 00", "00 00 00 05", "00 01 00 00"⟩

/-- The all-zero stored position. -/
def posZero : Position := ⟨"00 00 00 00", "00 00 00 00", "00 00 00 00"⟩

/-- A stored position whose pan axis is 2000 counts away from `posZero`. -/
def posFar : Position := ⟨"00 07 0d 00", "00 00 00 00", "00 00 00 00"⟩

/-! ### Codec lemmas -/

theorem hexVal_nibbleChar {n : Nat} (h : n < 16) : hexVal (nibbleChar n) = some n := by
  interval_cases n <;> rfl

theorem nibbleChar_ne_space {n : Nat} (h : n < 16) : nibbleChar n ≠ ' ' := by
  interval_cases n <;> decide

theorem toList_encodeRaw (v : Int) :
    (encodeRaw v).toList =
      [ '0', nibbleChar (((v % 65536).toNat / 256) / 16), ' ',
        '0', nibbleChar (((v % 65536).toNat / 256) % 16), ' ',
        '0', nibbleChar (((v % 65536).toNat % 256) / 16), ' ',
        '0', nibbleChar (((v % 65536).toNat % 256) % 16)] := by
  rfl

theorem stripSpaces_encodeRaw (v : Int) :
    stripSpaces (encodeRaw v) =
      [ '0', nibbleChar (((v % 65536).toNat / 256) / 16),
        '0', nibbleChar (((v % 65536).toNat / 256) % 16),
        '0', nibbleChar (((v % 65536).toNat % 256) / 16),
        '0', nibbleChar (((v % 65536).toNat % 256) % 16)] := by
  have h1 : 0 ≤ v % 65536 := Int.emod_nonneg v (by norm_num)
  have h2 : v % 65536 < 65536 := Int.emod_lt_of_pos v (by norm_num)
  have n1 : ((v % 65536).toNat / 256) / 16 < 16 := by omega
  have n2 : ((v % 65536).toNat / 256) % 16 < 16 := by omega
  have n3 : ((v % 65536).toNat % 256) / 16 < 16 := by omega
  have n4 : ((v % 65536).toNat % 256) % 16 < 16 := by omega
  unfold stripSpaces
  rw [toList_encodeRaw]
  simp [List.filter, nibbleChar_ne_space n1, nibbleChar_ne_space n2,
    nibbleChar_ne_space n3, nibbleChar_ne_space n4]

theorem hexVal_zero_char : hexVal '0' = some 0 := rfl

theorem pyWhitespace_zero_char : pyWhitespace '0' = false := rfl

theorem fromhex_encodeRaw (v : Int) :
    fromhexNibbles (stripSpaces (encodeRaw v)) =
      some [0, ((v % 65536).toNat / 256) / 16,
            0, ((v % 65536).toNat / 256) % 16,
            0, ((v % 65536).toNat % 256) / 16,
            0, ((v % 65536).toNat % 256) % 16] := by
  have h1 : 0 ≤ v % 65536 := Int.emod_nonneg v (by norm_num)
  have h2 : v % 65536 < 65536 := Int.emod_lt_of_pos v (by norm_num)
  have e1 : hexVal (nibbleChar (((v % 65536).toNat / 256) / 16)) =
      some (((v % 65536).toNat / 256) / 16) := hexVal_nibbleChar (by omega)
  have e2 : hexVal (nibbleChar (((v % 65536).toNat / 256) % 16)) =
      some (((v % 65536).toNat / 256) % 16) := hexVal_nibbleChar (by omega)
  have e3 : hexVal (nibbleChar (((v % 65536).toNat % 256) / 16)) =
      some (((v % 65536).toNat % 256) / 16) := hexVal_nibbleChar (by omega)
  have e4 : hexVal (nibbleChar (((v % 65536).toNat % 256) % 16)) =
      some (((v % 65536).toNat % 256) % 16) := hexVal_nibbleChar (by omega)
  rw [stripSpaces_encodeRaw]
  simp [fromhexNibbles, pyWhitespace_zero_char, e1, e2, e3, e4, hexVal_zero_char]

/-- Core round-trip fact of the value codec. -/
theorem decode_encodeRaw {v : Int} (h1 : -32768 ≤ v) (h2 : v ≤ 32767) :
    decode (encodeRaw v) = some v := by
  unfold decode
  rw [fromhex_encodeRaw]
  have h3 : 0 ≤ v % 65536 := Int.emod_nonneg v (by norm_num)
  have h4 : v % 65536 < 65536 := Int.emod_lt_of_pos v (by norm_num)
  have h5 : ((v % 65536).toNat : Int) = v % 65536 := Int.toNat_of_nonneg h3
  norm_num [oddIndexed, fromBytesSignedBE, nibblesVal, List.foldl]
  omega

/-! ## Helper lemmas about the embedding -/

@[simp] theorem ok_bind {α β : Type} (a : α) (f : α → Except Err β) :
    (Except.ok a : Except Err α) >>= f = f a := rfl

@[simp] theorem error_bind {α β : Type} (e : Err) (f : α → Except Err β) :
    (Except.error e : Except Err α) >>= f = Except.error e := rfl

@[simp] theorem ofOption_some (e : Err) (a : α) : ofOption e (some a) = .ok a := rfl

@[simp] theorem ofOption_none (e : Err) : ofOption e (none : Option α) = .error e := rfl

theorem truncInt_intCast (n : Int) : truncInt (n : ℚ) = n := by
  unfold truncInt
  split <;> simp

theorem truncInt_eval_nonneg {q : ℚ} {n : Int} (h1 : 0 ≤ q) (h2 : (n : ℚ) ≤ q)
    (h3 : q < (n : ℚ) + 1) : truncInt q = n := by
  unfold truncInt
  rw [if_pos h1]
  exact Int.floor_eq_iff.mpr ⟨h2, h3⟩

theorem truncInt_eval_neg {q : ℚ} {n : Int} (h1 : q < 0) (h2 : (n : ℚ) - 1 < q)
    (h3 : q ≤ (n : ℚ)) : truncInt q = n := by
  unfold truncInt
  rw [if_neg (not_le.mpr h1)]
  exact Int.ceil_eq_iff.mpr ⟨h2, h3⟩

theorem le_truncInt_of_le {q : ℚ} {a : Int} (h : (a : ℚ) ≤ q) : a ≤ truncInt q := by
  unfold truncInt
  split
  · exact Int.le_floor.mpr h
  · exact_mod_cast h.trans (Int.le_ceil q)

theorem truncInt_le_of_le {q : ℚ} {b : Int} (h : q ≤ (b : ℚ)) : truncInt q ≤ b := by
  unfold truncInt
  split
  · exact_mod_cast (Int.floor_le q).trans h
  · exact Int.ceil_le.mpr h

theorem min_le_linear_interpolation {s e t : ℚ} (h0 : 0 ≤ t) (h1 : t ≤ 1) :
    min s e ≤ linear_interpolation s e t := by
  unfold linear_interpolation
  rcases le_total s e with h | h
  · rw [min_eq_left h]; nlinarith
  · rw [min_eq_right h]; nlinarith

theorem linear_interpolation_le_max {s e t : ℚ} (h0 : 0 ≤ t) (h1 : t ≤ 1) :
    linear_interpolation s e t ≤ max s e := by
  unfold linear_interpolation
  rcases le_total s e with h | h
  · rw [max_eq_right h]; nlinarith
  · rw [max_eq_left h]; nlinarith

theorem interpValue_mem {s e : Int} {t : ℚ} (h0 : 0 ≤ t) (h1 : t ≤ 1) :
    min s e ≤ interpValue s e t ∧ interpValue s e t ≤ max s e := by
  constructor
  · apply le_truncInt_of_le
    have h := min_le_linear_interpolation (s := (s : ℚ)) (e := (e : ℚ)) h0 h1
    have hc : ((min s e : Int) : ℚ) = min (s : ℚ) (e : ℚ) := by push_cast; rfl
    rw [hc]; exact h
  · apply truncInt_le_of_le
    have h := linear_interpolation_le_max (s := (s : ℚ)) (e := (e : ℚ)) h0 h1
    have hc : ((max s e : Int) : ℚ) = max (s : ℚ) (e : ℚ) := by push_cast; rfl
    rw [hc]; exact h

theorem interpValue_range {s e : Int} {t : ℚ}
    (hs1 : -32768 ≤ s) (hs2 : s ≤ 32767) (he1 : -32768 ≤ e) (he2 : e ≤ 32767)
    (h0 : 0 ≤ t) (h1 : t ≤ 1) :
    -32768 ≤ interpValue s e t ∧ interpValue s e t ≤ 32767 := by
  obtain ⟨ha, hb⟩ := interpValue_mem (s := s) (e := e) h0 h1
  exact ⟨le_trans (le_min hs1 he1) ha, le_trans hb (max_le hs2 he2)⟩

theorem encode_ok {v : Int} (h1 : -32768 ≤ v) (h2 : v ≤ 32767) :
    encode v = some (encodeRaw v) := by
  unfold encode
  rw [if_neg (by omega)]

theorem interpolate_positions_ok {start stop : Position} {sp st sz ep et ez : Int} {t : ℚ}
    (hsp : decode start.pan = some sp) (hst : decode start.tilt = some st)
    (hsz : decode start.zoom = some sz)
    (hep : decode stop.pan = some ep) (het : decode stop.tilt = some et)
    (hez : decode stop.zoom = some ez)
    (bsp : -32768 ≤ sp ∧ sp ≤ 32767) (bst : -32768 ≤ st ∧ st ≤ 32767)
    (bsz : -32768 ≤ sz ∧ sz ≤ 32767)
    (bep : -32768 ≤ ep ∧ ep ≤ 32767) (bet : -32768 ≤ et ∧ et ≤ 32767)
    (bez : -32768 ≤ ez ∧ ez ≤ 32767)
    (h0 : 0 ≤ t) (h1 : t ≤ 1) :
    interpolate_positions start stop t = .ok (interpPos sp ep st et sz ez t) := by
  obtain ⟨hp1, hp2⟩ := interpValue_range bsp.1 bsp.2 bep.1 bep.2 h0 h1
  obtain ⟨ht1, ht2⟩ := interpValue_range bst.1 bst.2 bet.1 bet.2 h0 h1
  obtain ⟨hz1, hz2⟩ := interpValue_range bsz.1 bsz.2 bez.1 bez.2 h0 h1
  simp only [interpValue] at hp1 hp2 ht1 ht2 hz1 hz2
  unfold interpolate_positions
  rw [hsp, hst, hsz, hep, het, hez]
  simp only [ofOption_some, ok_bind]
  rw [encode_ok hp1 hp2, encode_ok ht1 ht2, encode_ok hz1 hz2]
  simp only [ofOption_some, ok_bind]
  simp [interpPos, interpValue]
  rfl

theorem move_camera_ok {p t : ℚ} (fail : Nat → Bool) (pos : Position)
    (hp : -24 ≤ truncInt p ∧ truncInt p ≤ 24) (ht : -24 ≤ truncInt t ∧ truncInt t ≤ 24) :
    move_camera fail pos p t = .ok (cmdPair pos (truncInt p) (truncInt t), sentPattern fail) := by
  unfold move_camera
  rw [if_neg (not_not_intro hp), if_neg (not_not_intro ht)]

theorem move_camera_err {p t : ℚ} (fail : Nat → Bool) (pos : Position)
    (h : ¬ (-24 ≤ truncInt p ∧ truncInt p ≤ 24) ∨ ¬ (-24 ≤ truncInt t ∧ truncInt t ≤ 24)) :
    move_camera fail pos p t = .error .rangeErr := by
  unfold move_camera
  by_cases hp : -24 ≤ truncInt p ∧ truncInt p ≤ 24
  · have ht : ¬ (-24 ≤ truncInt t ∧ truncInt t ≤ 24) := by tauto
    rw [if_neg (not_not_intro hp), if_pos ht]
  · rw [if_pos hp]

theorem runSteps_ok_of (F : Nat → Except Err StepRec) (g : Nat → StepRec) (l : List Nat)
    (h : ∀ i ∈ l, F i = .ok (g i)) : runSteps F l = .ok (l.map g) := by
  induction l with
  | nil => rfl
  | cons i is ih =>
    rw [List.map_cons]
    unfold runSteps
    rw [h i (by simp), ih (fun j hj => h j (by simp [hj]))]

theorem speed_formula_mem {d : ℚ} (h0 : 0 ≤ d) (h1 : d ≤ 10) :
    -24 ≤ speed_formula d ∧ speed_formula d ≤ 24 := by
  unfold speed_formula
  constructor <;> nlinarith

theorem truncInt_speed_mem {d : ℚ} (h0 : 0 ≤ d) (h1 : d ≤ 10) :
    -24 ≤ truncInt (speed_formula d) ∧ truncInt (speed_formula d) ≤ 24 := by
  obtain ⟨ha, hb⟩ := speed_formula_mem h0 h1
  constructor
  · exact le_truncInt_of_le (by exact_mod_cast ha)
  · exact truncInt_le_of_le (by exact_mod_cast hb)

/-- When the positions decode to 16-bit values, the step count is at least 1
and both truncated speeds lie in `[-24, 24]`, `animate_camera` runs every
step `0, ..., steps` and returns the full trace. -/
theorem animate_camera_ok (fail : Nat → Nat → Bool) {start stop : Position}
    {sp st sz ep et ez : Int} {seconds : ℚ}
    (hsp : decode start.pan = some sp) (hst : decode start.tilt = some st)
    (hsz : decode start.zoom = some sz)
    (hep : decode stop.pan = some ep) (het : decode stop.tilt = some et)
    (hez : decode stop.zoom = some ez)
    (bsp : -32768 ≤ sp ∧ sp ≤ 32767) (bst : -32768 ≤ st ∧ st ≤ 32767)
    (bsz : -32768 ≤ sz ∧ sz ≤ 32767)
    (bep : -32768 ≤ ep ∧ ep ≤ 32767) (bet : -32768 ≤ et ∧ et ≤ 32767)
    (bez : -32768 ≤ ez ∧ ez ≤ 32767)
    (hsteps : 1 ≤ truncInt (seconds * 10))
    (hps : -24 ≤ truncInt (speed_formula (distPerStep sp ep (truncInt (seconds * 10)))) ∧
           truncInt (speed_formula (distPerStep sp ep (truncInt (seconds * 10)))) ≤ 24)
    (hts : -24 ≤ truncInt (speed_formula (distPerStep st et (truncInt (seconds * 10)))) ∧
           truncInt (speed_formula (distPerStep st et (truncInt (seconds * 10)))) ≤ 24) :
    animate_camera fail start stop seconds =
      .ok ((pyRange (truncInt (seconds * 10) + 1)).map
        (expectedStep fail sp ep st et sz ez (truncInt (seconds * 10)))) := by
  unfold animate_camera
  rw [hsp, hep]
  simp only [ofOption_some, ok_bind]
  rw [if_neg (by omega)]
  rw [hst, het]
  simp only [ofOption_some, ok_bind]
  apply runSteps_ok_of
  intro i hi
  have hi' : (i : Int) ≤ truncInt (seconds * 10) := by
    simp only [pyRange, List.mem_range] at hi
    omega
  have hpos : (0 : ℚ) < ((truncInt (seconds * 10) : Int) : ℚ) := by
    exact_mod_cast lt_of_lt_of_le Int.zero_lt_one hsteps
  have h0 : 0 ≤ (i : ℚ) / ((truncInt (seconds * 10) : Int) : ℚ) :=
    div_nonneg (by positivity) hpos.le
  have h1 : (i : ℚ) / ((truncInt (seconds * 10) : Int) : ℚ) ≤ 1 := by
    rw [div_le_one hpos]
    exact_mod_cast hi'
  rw [interpolate_positions_ok hsp hst hsz hep het hez bsp bst bsz bep bet bez h0 h1]
  simp only [ok_bind]
  simp only [distPerStep] at hps hts
  rw [move_camera_ok (fail i) _ hps hts]
  simp only [ok_bind]
  rfl

/-- When either truncated speed fails the range check, the driver halts with
the `ValueError` from `move_camera` while executing step 0: the speeds are
handed to the command builder unclamped. -/
theorem animate_camera_rangeErr (fail : Nat → Nat → Bool) {start stop : Position}
    {sp st sz ep et ez : Int} {seconds : ℚ}
    (hsp : decode start.pan = some sp) (hst : decode start.tilt = some st)
    (hsz : decode start.zoom = some sz)
    (hep : decode stop.pan = some ep) (het : decode stop.tilt = some et)
    (hez : decode stop.zoom = some ez)
    (bsp : -32768 ≤ sp ∧ sp ≤ 32767) (bst : -32768 ≤ st ∧ st ≤ 32767)
    (bsz : -32768 ≤ sz ∧ sz ≤ 32767)
    (bep : -32768 ≤ ep ∧ ep ≤ 32767) (bet : -32768 ≤ et ∧ et ≤ 32767)
    (bez : -32768 ≤ ez ∧ ez ≤ 32767)
    (hsteps : 1 ≤ truncInt (seconds * 10))
    (hout : ¬ (-24 ≤ truncInt (speed_formula (distPerStep sp ep (truncInt (seconds * 10)))) ∧
               truncInt (speed_formula (distPerStep sp ep (truncInt (seconds * 10)))) ≤ 24) ∨
            ¬ (-24 ≤ truncInt (speed_formula (distPerStep st et (truncInt (seconds * 10)))) ∧
               truncInt (speed_formula (distPerStep st et (truncInt (seconds * 10)))) ≤ 24)) :
    animate_camera fail start stop seconds = .error .rangeErr := by
  unfold animate_camera
  rw [hsp, hep]
  simp only [ofOption_some, ok_bind]
  rw [if_neg (by omega)]
  rw [hst, het]
  simp only [ofOption_some, ok_bind]
  obtain ⟨n, hn⟩ : ∃ n : Nat, (truncInt (seconds * 10) + 1).toNat = n + 1 :=
    ⟨(truncInt (seconds * 10)).toNat, by omega⟩
  rw [pyRange, hn, List.range_succ_eq_map]
  unfold runSteps
  have hpos : (0 : ℚ) < ((truncInt (seconds * 10) : Int) : ℚ) := by
    exact_mod_cast lt_of_lt_of_le Int.zero_lt_one hsteps
  have h0 : 0 ≤ ((0 : Nat) : ℚ) / ((truncInt (seconds * 10) : Int) : ℚ) := by
    simp
  have h1 : ((0 : Nat) : ℚ) / ((truncInt (seconds * 10) : Int) : ℚ) ≤ 1 := by
    simp
  rw [interpolate_positions_ok hsp hst hsz hep het hez bsp bst bsz bep bet bez h0 h1]
  simp only [ok_bind]
  simp only [distPerStep] at hout
  rw [move_camera_err (fail 0) _ hout]
  rfl

/-- With a step count of zero, `animate_camera` stops with the
`ZeroDivisionError` raised while computing the pan distance per step. -/
theorem animate_camera_divzero (fail : Nat → Nat → Bool) {start stop : Position}
    {sp ep : Int} {seconds : ℚ}
    (hsp : decode start.pan = some sp) (hep : decode stop.pan = some ep)
    (hsteps : truncInt (seconds * 10) = 0) :
    animate_camera fail start stop seconds = .error .divZero := by
  unfold animate_camera
  rw [hsp, hep]
  simp only [ofOption_some, ok_bind]
  rw [if_pos hsteps]

/-- With a strictly negative step count, the `for` loop of `animate_camera`
iterates over an empty range and the function returns silently with an empty
trace. -/
theorem animate_camera_empty (fail : Nat → Nat → Bool) {start stop : Position}
    {sp st ep et : Int} {seconds : ℚ}
    (hsp : decode start.pan = some sp) (hst : decode start.tilt = some st)
    (hep : decode stop.pan = some ep) (het : decode stop.tilt = some et)
    (hsteps : truncInt (seconds * 10) ≤ -1) :
    animate_camera fail start stop seconds = .ok [] := by
  unfold animate_camera
  rw [hsp, hep]
  simp only [ofOption_some, ok_bind]
  rw [if_neg (by omega)]
  rw [hst, het]
  simp only [ofOption_some, ok_bind]
  have hr : pyRange (truncInt (seconds * 10) + 1) = [] := by
    unfold pyRange
    rw [Int.toNat_of_nonpos (by omega)]
    rfl
  rw [hr]
  rfl

theorem runSteps_congr {β : Type} (h : StepRec → β) {F G : Nat → Except Err StepRec}
    (l : List Nat) (hFG : ∀ i ∈ l, (F i).map h = (G i).map h) :
    (runSteps F l).map (List.map h) = (runSteps G l).map (List.map h) := by
  induction l with
  | nil => rfl
  | cons a as ih =>
    have ha := hFG a (by simp)
    have ih' := ih (fun j hj => hFG j (by simp [hj]))
    unfold runSteps
    cases hF : F a with
    | error e =>
      cases hG : G a with
      | error e2 =>
        rw [hF, hG] at ha
        simp only [Except.map] at ha
        cases ha
        rfl
      | ok r2 =>
        rw [hF, hG] at ha
        simp [Except.map] at ha
    | ok r =>
      cases hG : G a with
      | error e2 =>
        rw [hF, hG] at ha
        simp [Except.map] at ha
      | ok r2 =>
        rw [hF, hG] at ha
        simp only [Except.map, Except.ok.injEq] at ha
        cases hR : runSteps F as with
        | error e =>
          cases hR2 : runSteps G as with
          | error e2 =>
            rw [hR, hR2] at ih'
            simp only [Except.map] at ih'
            cases ih'
            rfl
          | ok rs2 =>
            rw [hR, hR2] at ih'
            simp [Except.map] at ih'
        | ok rs =>
          cases hR2 : runSteps G as with
          | error e2 =>
            rw [hR, hR2] at ih'
            simp [Except.map] at ih'
          | ok rs2 =>
            rw [hR, hR2] at ih'
            simp only [Except.map, Except.ok.injEq] at ih'
            simp [Except.map, ha, ih']

theorem runSteps_ok_inv {F : Nat → Except Err StepRec} {l : List Nat} {recs : List StepRec}
    (h : runSteps F l = .ok recs) :
    recs.length = l.length ∧
    ∀ i (hl : i < l.length) (hr : i < recs.length),
      F (l.get ⟨i, hl⟩) = .ok (recs.get ⟨i, hr⟩) := by
  induction l generalizing recs with
  | nil =>
    unfold runSteps at h
    cases h
    exact ⟨rfl, fun i hl _ => absurd hl (by simp)⟩
  | cons a as ih =>
    unfold runSteps at h
    cases hF : F a with
    | error e => rw [hF] at h; simp at h
    | ok r =>
      rw [hF] at h
      cases hR : runSteps F as with
      | error e => rw [hR] at h; simp at h
      | ok rs =>
        rw [hR] at h
        simp only [Except.ok.injEq] at h
        subst h
        obtain ⟨hlen, hget⟩ := ih hR
        refine ⟨by simp [hlen], ?_⟩
        intro i hl hr
        cases i with
        | zero => simpa using hF
        | succ j =>
          simpa using hget j (by simpa using hl) (by simpa using hr)

theorem move_camera_ok_inv {fail : Nat → Bool} {pos : Position} {p t : ℚ}
    {lg : List String × List Bool} (h : move_camera fail pos p t = .ok lg) :
    lg.2 = sentPattern fail := by
  simp only [move_camera] at h
  split at h
  · simp at h
  · split at h
    · simp at h
    · simp only [Except.ok.injEq] at h
      rw [← h]

/-- The observable behaviour of `animate_camera` up to transport outcomes is
the same for every transport-failure oracle: a failed send never changes
which steps run, which positions are computed, or which commands are
built. -/
theorem animate_camera_fail_congr (f g : Nat → Nat → Bool) (start stop : Position)
    (seconds : ℚ) :
    (animate_camera f start stop seconds).map (List.map eraseSent) =
      (animate_camera g start stop seconds).map (List.map eraseSent) := by
  unfold animate_camera
  cases decode start.pan with
  | none => rfl
  | some sp =>
    cases decode stop.pan with
    | none => rfl
    | some ep =>
      simp only [ofOption_some, ok_bind]
      by_cases hz : truncInt (seconds * 10) = 0
      · rw [if_pos hz, if_pos hz]
      · rw [if_neg hz, if_neg hz]
        cases decode start.tilt with
        | none => rfl
        | some st =>
          cases decode stop.tilt with
          | none => rfl
          | some et =>
            simp only [ofOption_some, ok_bind]
            apply runSteps_congr
            intro i _
            cases hI : interpolate_positions start stop
                ((i : ℚ) / ((truncInt (seconds * 10) : Int) : ℚ)) with
            | error e => simp [Except.map]
            | ok pos =>
              simp only [ok_bind]
              unfold move_camera
              by_cases hp : -24 ≤ truncInt (speed_formula
                  (|(sp : ℚ) - (ep : ℚ)| / ((truncInt (seconds * 10) : Int) : ℚ))) ∧
                  truncInt (speed_formula
                  (|(sp : ℚ) - (ep : ℚ)| / ((truncInt (seconds * 10) : Int) : ℚ))) ≤ 24
              · rw [if_neg (not_not_intro hp), if_neg (not_not_intro hp)]
                by_cases ht : -24 ≤ truncInt (speed_formula
                    (|(st : ℚ) - (et : ℚ)| / ((truncInt (seconds * 10) : Int) : ℚ))) ∧
                    truncInt (speed_formula
                    (|(st : ℚ) - (et : ℚ)| / ((truncInt (seconds * 10) : Int) : ℚ))) ≤ 24
                · rw [if_neg (not_not_intro ht), if_neg (not_not_intro ht)]
                  simp [Except.map, eraseSent]
                · rw [if_pos ht, if_pos ht]
              · rw [if_pos hp, if_pos hp]

/-- Every trace the driver returns records, for step `i`, exactly the send
outcomes that the transport oracle dictates for step `i`: a failed first
send is reported as `false` (and skips the zoom send), and the loop goes on
to the next step regardless. -/
theorem animate_camera_sent {f : Nat → Nat → Bool} {start stop : Position} {seconds : ℚ}
    {recs : List StepRec} (h : animate_camera f start stop seconds = .ok recs) :
    ∀ i (hr : i < recs.length), (recs.get ⟨i, hr⟩).sent = sentPattern (f i) := by
  unfold animate_camera at h
  cases hd1 : decode start.pan with
  | none => rw [hd1] at h; simp [ofOption_none] at h
  | some sp =>
  rw [hd1] at h
  cases hd2 : decode stop.pan with
  | none => rw [hd2] at h; simp [ofOption_none] at h
  | some ep =>
  rw [hd2] at h
  simp only [ofOption_some, ok_bind] at h
  by_cases hz : truncInt (seconds * 10) = 0
  · rw [if_pos hz] at h; simp at h
  · rw [if_neg hz] at h
    cases hd3 : decode start.tilt with
    | none => rw [hd3] at h; simp [ofOption_none] at h
    | some st =>
    rw [hd3] at h
    cases hd4 : decode stop.tilt with
    | none => rw [hd4] at h; simp [ofOption_none] at h
    | some et =>
    rw [hd4] at h
    simp only [ofOption_some, ok_bind] at h
    obtain ⟨hlen, hget⟩ := runSteps_ok_inv h
    intro i hr
    have hil : i < (pyRange (truncInt (seconds * 10) + 1)).length := by
      rw [← hlen]; exact hr
    have hFi := hget i hil hr
    have hidx : (pyRange (truncInt (seconds * 10) + 1)).get ⟨i, hil⟩ = i := by
      simp [pyRange]
    rw [hidx] at hFi
    cases hI : interpolate_positions start stop
        ((i : ℚ) / ((truncInt (seconds * 10) : Int) : ℚ)) with
    | error e => rw [hI] at hFi; simp at hFi
    | ok pos =>
      rw [hI] at hFi
      simp only [ok_bind] at hFi
      cases hM : move_camera (f i) pos
          (speed_formula (|(sp : ℚ) - (ep : ℚ)| / ((truncInt (seconds * 10) : Int) : ℚ)))
          (speed_formula (|(st : ℚ) - (et : ℚ)| / ((truncInt (seconds * 10) : Int) : ℚ))) with
      | error e => rw [hM] at hFi; simp at hFi
      | ok lg =>
        rw [hM] at hFi
        simp only [ok_bind] at hFi
        simp only [pure, Except.pure, Except.ok.injEq] at hFi
        rw [← hFi]
        exact move_camera_ok_inv hM

/-! ## Lemmas on malformed codec input and command formatting -/

theorem parseHexList_length {cs : List Char} {ns : List Nat}
    (h : parseHexList cs = some ns) : ns.length = cs.length := by
  induction cs generalizing ns with
  | nil =>
    injection h with h2
    rw [← h2]
    rfl
  | cons c cs ih =>
    simp only [parseHexList] at h
    cases hc : hexVal c with
    | none => rw [hc] at h; simp at h
    | some n =>
      rw [hc] at h
      cases hp : parseHexList cs with
      | none => rw [hp] at h; simp at h
      | some ms =>
        rw [hp] at h
        simp only [Option.some_bind, Option.map_some', Option.some.injEq] at h
        rw [← h]
        simp only [List.length_cons, ih hp]

theorem parseHexList_eq_none_iff (cs : List Char) :
    parseHexList cs = none ↔ ∃ c ∈ cs, hexVal c = none := by
  induction cs with
  | nil => simp [parseHexList]
  | cons c cs ih =>
    simp only [parseHexList]
    cases hc : hexVal c with
    | none => simp [hc]
    | some n => simp [hc, Option.map_eq_none', ih]

theorem oddIndexed_length : ∀ (l : List α), (oddIndexed l).length = l.length / 2
  | [] => by simp [oddIndexed]
  | [_] => by simp [oddIndexed]
  | a :: b :: rest => by
    have h := oddIndexed_length rest
    simp only [oddIndexed, List.length_cons, h]
    omega

theorem fromhexNibbles_skip {c : Char} (cs : List Char) (h : pyWhitespace c = true) :
    fromhexNibbles (c :: cs) = fromhexNibbles cs := by
  cases cs with
  | nil => simp [fromhexNibbles, h]
  | cons c2 rest => simp [fromhexNibbles, h]

/-- Every character of a string `bytes.fromhex` accepts is ASCII whitespace
or a hex digit. -/
theorem fromhexNibbles_chars : ∀ (cs : List Char) (ns : List Nat),
    fromhexNibbles cs = some ns → ∀ c ∈ cs, pyWhitespace c = true ∨ (hexVal c).isSome
  | [], _, _, c, hc => absurd hc (by simp)
  | [c0], ns, h, c, hc => by
    simp only [fromhexNibbles] at h
    rcases List.mem_singleton.mp hc with rfl
    by_cases hw : pyWhitespace c = true
    · exact Or.inl hw
    · rw [if_neg hw] at h
      cases h
  | c0 :: c2 :: rest, ns, h, c, hc => by
    by_cases hw : pyWhitespace c0 = true
    · rw [fromhexNibbles_skip (c2 :: rest) hw] at h
      rcases List.mem_cons.mp hc with rfl | hc2
      · exact Or.inl hw
      · exact fromhexNibbles_chars (c2 :: rest) ns h c hc2
    · simp only [fromhexNibbles] at h
      rw [if_neg hw] at h
      cases hx : hexVal c0 with
      | none => rw [hx] at h; cases h
      | some hi =>
        rw [hx] at h
        cases hx2 : hexVal c2 with
        | none => rw [hx2] at h; cases h
        | some lo =>
          rw [hx2] at h
          simp only [Option.some_bind] at h
          obtain ⟨ns2, hns2, _⟩ := Option.map_eq_some'.mp h
          rcases List.mem_cons.mp hc with rfl | hc2
          · exact Or.inr (by simp [hx])
          · rcases List.mem_cons.mp hc2 with rfl | hc3
            · exact Or.inr (by simp [hx2])
            · exact fromhexNibbles_chars rest ns2 hns2 c hc3

/-- On input without any ASCII whitespace, `bytes.fromhex` succeeds exactly
when every character is a hex digit and the digit count is even. -/
theorem fromhexNibbles_pure : ∀ (cs : List Char), (∀ c ∈ cs, pyWhitespace c = false) →
    fromhexNibbles cs = if cs.length % 2 = 0 then parseHexList cs else none
  | [], _ => by simp [fromhexNibbles, parseHexList]
  | [c0], h => by
    have h0 : pyWhitespace c0 = false := h c0 (by simp)
    simp only [fromhexNibbles]
    rw [if_neg (by simp [h0])]
    simp
  | c0 :: c2 :: rest, h => by
    have h0 : pyWhitespace c0 = false := h c0 (by simp)
    have ih := fromhexNibbles_pure rest (fun c hc => h c (by simp [hc]))
    simp only [fromhexNibbles]
    rw [if_neg (by simp [h0])]
    have hmod : (c0 :: c2 :: rest).length % 2 = rest.length % 2 := by
      simp only [List.length_cons]
      omega
    rw [hmod]
    cases hx : hexVal c0 with
    | none =>
      simp only [parseHexList, hx, Option.none_bind]
      split <;> rfl
    | some hi =>
      cases hx2 : hexVal c2 with
      | none =>
        simp only [parseHexList, hx, hx2, Option.some_bind, Option.none_bind,
          Option.map_eq_none']
        split <;> simp
      | some lo =>
        rw [ih]
        simp only [parseHexList, hx, hx2, Option.some_bind]
        by_cases he : rest.length % 2 = 0
        · rw [if_pos he, if_pos he]
          cases hp : parseHexList rest <;> simp [hp]
        · rw [if_neg he, if_neg he]
          simp

theorem move_camera_cmds_inv {fail : Nat → Bool} {pos : Position} {p t : ℚ}
    {lg : List String × List Bool} (h : move_camera fail pos p t = .ok lg) :
    lg.1 = cmdPair pos (truncInt p) (truncInt t) := by
  simp only [move_camera] at h
  split at h
  · simp at h
  · split at h
    · simp at h
    · simp only [Except.ok.injEq] at h
      rw [← h]

theorem hex2_parse {n : Nat} (h : n < 256) :
    parseHexList (hex2 n).toList = some [n / 16 % 16, n % 16] ∧
      nibblesVal [n / 16 % 16, n % 16] = n := by
  constructor
  · show parseHexList [nibbleChar (n / 16 % 16), nibbleChar (n % 16)] = _
    rw [parseHexList, hexVal_nibbleChar (by omega), parseHexList,
      hexVal_nibbleChar (by omega), parseHexList]
    rfl
  · simp only [nibblesVal, List.foldl]
    omega

/-! ## The claims -/

/-- C1: for every integer `v` in `[-32768, 32767]`, `encode v` succeeds and
decoding the encoded string returns exactly `v` (the codec round-trip law of
`move.py`). -/
theorem C1_decode_encode_roundtrip (v : Int) (h1 : -32768 ≤ v) (h2 : v ≤ 32767) :
    ∃ s, encode v = some s ∧ decode s = some v :=
  ⟨encodeRaw v, encode_ok h1 h2, decode_encodeRaw h1 h2⟩

/-- Witness for C1 at `v = -12345`. -/
theorem C1_witness : ∃ s, encode (-12345) = some s ∧ decode s = some (-12345) :=
  C1_decode_encode_roundtrip (-12345) (by norm_num) (by norm_num)

/-- C2 (the code contradicts the claim): when the computed step count
`int(seconds * 10)` is 0, `animate_camera` does not raise the step count to
1 and produce a single-step plan equal to `end`; it raises
`ZeroDivisionError` while computing `distance_per_step_pan`. -/
theorem C2_zero_stepcount_divzero (fail : Nat → Nat → Bool) (start stop : Position)
    (sp ep : Int) (seconds : ℚ)
    (hsp : decode start.pan = some sp) (hep : decode stop.pan = some ep)
    (hsteps : truncInt (seconds * 10) = 0) :
    animate_camera fail start stop seconds = .error .divZero :=
  animate_camera_divzero fail hsp hep hsteps

/-- Witness for C2: a 0.05-second animation request divides by zero. -/
theorem C2_witness :
    animate_camera (fun _ _ => false) posA posZero (1 / 20) = .error .divZero :=
  C2_zero_stepcount_divzero (fun _ _ => false) posA posZero 10 0 (1 / 20)
    (by decide) (by decide) (by norm_num [truncInt])

/-- C3 is false as stated: with start pan 0, end pan 2000 and a 2-second
animation, the per-step pan distance is 100, the code's speed value is
`speed_formula 100 = 456` — outside `[-24, 24]` — and is handed onward, so
the run aborts with the `move_camera` range error; had the claimed
clamped-and-rounded speed (`claimedSpeed 100 = 24`) been used, the range
check could not fire. -/
theorem C3_counterexample :
    speed_formula 100 = 456 ∧
    claimedSpeed 100 = 24 ∧
    animate_camera (fun _ _ => false) posZero posFar 2 = .error .rangeErr := by
  have h20 : truncInt ((2 : ℚ) * 10) = 20 :=
    truncInt_eval_nonneg (by norm_num) (by norm_num) (by norm_num)
  refine ⟨by norm_num [speed_formula], ?_, ?_⟩
  · have hm : min (24 : ℚ) (max (-24 : ℚ) (speed_formula 100)) = ((24 : Int) : ℚ) := by
      norm_num [speed_formula]
    rw [claimedSpeed, hm, round_intCast]
  · apply @animate_camera_rangeErr (fun _ _ => false) posZero posFar 0 0 0 2000 0 0 2
      (by decide) (by decide) (by decide) (by decide) (by decide) (by decide)
      (by decide) (by decide) (by decide) (by decide) (by decide) (by decide)
      (by omega)
    refine Or.inl ?_
    rw [h20]
    have h456 : truncInt (speed_formula (distPerStep 0 2000 20)) = 456 := by
      rw [speed_formula, distPerStep]
      exact truncInt_eval_nonneg (by norm_num) (by norm_num) (by norm_num)
    rw [h456]
    omega

/-- C3 amended: `animate_camera` uses the raw formula speed
`(distancePerStep / 10) * 24 * 2 - 24` with no clamping; `move_camera`
truncates it toward zero (it does not round to nearest); zero
distance-per-step yields exactly -24; and a speed outside `[-24, 24]` is
passed onward to `move_camera`, whose range check aborts the run. -/
theorem C3_speed_unclamped (fail : Nat → Nat → Bool) (start stop : Position)
    (sp st sz ep et ez : Int) (seconds : ℚ)
    (hsp : decode start.pan = some sp) (hst : decode start.tilt = some st)
    (hsz : decode start.zoom = some sz)
    (hep : decode stop.pan = some ep) (het : decode stop.tilt = some et)
    (hez : decode stop.zoom = some ez)
    (bsp : -32768 ≤ sp ∧ sp ≤ 32767) (bst : -32768 ≤ st ∧ st ≤ 32767)
    (bsz : -32768 ≤ sz ∧ sz ≤ 32767)
    (bep : -32768 ≤ ep ∧ ep ≤ 32767) (bet : -32768 ≤ et ∧ et ≤ 32767)
    (bez : -32768 ≤ ez ∧ ez ≤ 32767)
    (hsteps : 1 ≤ truncInt (seconds * 10)) :
    speed_formula 0 = -24 ∧
    ((¬ (-24 ≤ truncInt (speed_formula (distPerStep sp ep (truncInt (seconds * 10)))) ∧
         truncInt (speed_formula (distPerStep sp ep (truncInt (seconds * 10)))) ≤ 24) ∨
      ¬ (-24 ≤ truncInt (speed_formula (distPerStep st et (truncInt (seconds * 10)))) ∧
         truncInt (speed_formula (distPerStep st et (truncInt (seconds * 10)))) ≤ 24)) →
      animate_camera fail start stop seconds = .error .rangeErr) ∧
    (∀ recs, animate_camera fail start stop seconds = .ok recs →
      ∀ r ∈ recs, r.cmds = cmdPair r.pos
        (truncInt (speed_formula (distPerStep sp ep (truncInt (seconds * 10)))))
        (truncInt (speed_formula (distPerStep st et (truncInt (seconds * 10)))))) := by
  refine ⟨by norm_num [speed_formula],
    fun hout => animate_camera_rangeErr fail hsp hst hsz hep het hez
      bsp bst bsz bep bet bez hsteps hout, ?_⟩
  intro recs h r hr
  by_cases hps : -24 ≤ truncInt (speed_formula (distPerStep sp ep (truncInt (seconds * 10)))) ∧
      truncInt (speed_formula (distPerStep sp ep (truncInt (seconds * 10)))) ≤ 24
  · by_cases hts : -24 ≤ truncInt (speed_formula (distPerStep st et (truncInt (seconds * 10)))) ∧
        truncInt (speed_formula (distPerStep st et (truncInt (seconds * 10)))) ≤ 24
    · rw [animate_camera_ok fail hsp hst hsz hep het hez bsp bst bsz bep bet bez
        hsteps hps hts] at h
      simp only [Except.ok.injEq] at h
      subst h
      obtain ⟨i, _, hri⟩ := List.mem_map.mp hr
      rw [← hri]
      rfl
    · rw [animate_camera_rangeErr fail hsp hst hsz hep het hez bsp bst bsz bep bet bez
        hsteps (Or.inr hts)] at h
      simp at h
  · rw [animate_camera_rangeErr fail hsp hst hsz hep het hez bsp bst bsz bep bet bez
      hsteps (Or.inl hps)] at h
    simp at h

/-- Witness for C3 amended, at a stationary one-second animation. -/
theorem C3_witness : speed_formula 0 = -24 :=
  (@C3_speed_unclamped (fun _ _ => false) posZero posZero 0 0 0 0 0 0 1
    (by decide) (by decide) (by decide) (by decide) (by decide) (by decide)
    (by decide) (by decide) (by decide) (by decide) (by decide) (by decide)
    (by
      have h : truncInt ((1 : ℚ) * 10) = 10 :=
        truncInt_eval_nonneg (by norm_num) (by norm_num) (by norm_num)
      omega)).1

/-- C4: `move_camera` raises the range `ValueError` for any integer speed
outside `[-24, 24]` before building or sending anything, and for in-range
speeds the built pan/tilt command carries each speed as the two-hex-digit
rendering of its absolute value. -/
theorem C4_range_check (fail : Nat → Bool) (pos : Position) (ps ts : Int) :
    ((¬ (-24 ≤ ps ∧ ps ≤ 24) ∨ ¬ (-24 ≤ ts ∧ ts ≤ 24)) →
      move_camera fail pos (ps : ℚ) (ts : ℚ) = .error .rangeErr) ∧
    (-24 ≤ ps → ps ≤ 24 → -24 ≤ ts → ts ≤ 24 →
      move_camera fail pos (ps : ℚ) (ts : ℚ) = .ok (cmdPair pos ps ts, sentPattern fail) ∧
      (hex2 ps.natAbs).toList.length = 2 ∧
      parseHexList (hex2 ps.natAbs).toList = some [ps.natAbs / 16 % 16, ps.natAbs % 16] ∧
      nibblesVal [ps.natAbs / 16 % 16, ps.natAbs % 16] = ps.natAbs) := by
  constructor
  · intro h
    refine move_camera_err fail pos ?_
    rw [truncInt_intCast, truncInt_intCast]
    exact h
  · intro h1 h2 h3 h4
    have hlt : ps.natAbs < 256 := by omega
    refine ⟨?_, rfl, (hex2_parse hlt).1, (hex2_parse hlt).2⟩
    rw [move_camera_ok fail pos (by rw [truncInt_intCast]; exact ⟨h1, h2⟩)
      (by rw [truncInt_intCast]; exact ⟨h3, h4⟩), truncInt_intCast, truncInt_intCast]

/-- Witness for C4: speed 25 is rejected; speed -24 paired with 10 is
accepted and builds the commands. -/
theorem C4_witness :
    move_camera (fun _ => false) posZero ((25 : Int) : ℚ) ((0 : Int) : ℚ) =
      .error .rangeErr ∧
    move_camera (fun _ => false) posZero ((-24 : Int) : ℚ) ((10 : Int) : ℚ) =
      .ok (cmdPair posZero (-24) 10, sentPattern (fun _ => false)) :=
  ⟨(C4_range_check (fun _ => false) posZero 25 0).1 (Or.inl (by decide)),
   ((C4_range_check (fun _ => false) posZero (-24) 10).2
     (by decide) (by decide) (by decide) (by decide)).1⟩

/-- C5: interpolation at `t` computes, per axis, `start + (end - start) * t`
truncated toward zero and re-encodes it; at `t = 0` the result is exactly
the re-encoding of the decoded start axes (start up to encode/decode
round-trip), and at `t = 1` exactly that of the end axes. -/
theorem C5_interpolation_boundary (start stop : Position) (sp st sz ep et ez : Int)
    (hsp : decode start.pan = some sp) (hst : decode start.tilt = some st)
    (hsz : decode start.zoom = some sz)
    (hep : decode stop.pan = some ep) (het : decode stop.tilt = some et)
    (hez : decode stop.zoom = some ez)
    (bsp : -32768 ≤ sp ∧ sp ≤ 32767) (bst : -32768 ≤ st ∧ st ≤ 32767)
    (bsz : -32768 ≤ sz ∧ sz ≤ 32767)
    (bep : -32768 ≤ ep ∧ ep ≤ 32767) (bet : -32768 ≤ et ∧ et ≤ 32767)
    (bez : -32768 ≤ ez ∧ ez ≤ 32767) :
    (∀ t : ℚ, 0 ≤ t → t ≤ 1 →
      interpolate_positions start stop t = .ok (interpPos sp ep st et sz ez t)) ∧
    interpolate_positions start stop 0 = .ok ⟨encodeRaw sp, encodeRaw st, encodeRaw sz⟩ ∧
    interpolate_positions start stop 1 = .ok ⟨encodeRaw ep, encodeRaw et, encodeRaw ez⟩ := by
  have hgen : ∀ t : ℚ, 0 ≤ t → t ≤ 1 →
      interpolate_positions start stop t = .ok (interpPos sp ep st et sz ez t) :=
    fun t h0 h1 =>
      interpolate_positions_ok hsp hst hsz hep het hez bsp bst bsz bep bet bez h0 h1
  have hv0 : ∀ s e : Int, interpValue s e 0 = s := by
    intro s e
    have hq : linear_interpolation (s : ℚ) (e : ℚ) 0 = ((s : Int) : ℚ) := by
      rw [linear_interpolation]; ring
    rw [interpValue, hq, truncInt_intCast]
  have hv1 : ∀ s e : Int, interpValue s e 1 = e := by
    intro s e
    have hq : linear_interpolation (s : ℚ) (e : ℚ) 1 = ((e : Int) : ℚ) := by
      rw [linear_interpolation]; ring
    rw [interpValue, hq, truncInt_intCast]
  refine ⟨hgen, ?_, ?_⟩
  · rw [hgen 0 le_rfl zero_le_one, interpPos, hv0, hv0, hv0]
  · rw [hgen 1 zero_le_one le_rfl, interpPos, hv1, hv1, hv1]

/-- Witness for C5 at two concrete stored positions. -/
theorem C5_witness :
    interpolate_positions posA posB 0 =
      .ok ⟨encodeRaw 10, encodeRaw (-1), encodeRaw 0⟩ ∧
    interpolate_positions posA posB 1 =
      .ok ⟨encodeRaw 0, encodeRaw 5, encodeRaw 256⟩ :=
  ⟨(@C5_interpolation_boundary posA posB 10 (-1) 0 0 5 256
      (by decide) (by decide) (by decide) (by decide) (by decide) (by decide)
      (by decide) (by decide) (by decide) (by decide) (by decide) (by decide)).2.1,
   (@C5_interpolation_boundary posA posB 10 (-1) 0 0 5 256
      (by decide) (by decide) (by decide) (by decide) (by decide) (by decide)
      (by decide) (by decide) (by decide) (by decide) (by decide) (by decide)).2.2⟩

/-- C6 is false as stated: for stored positions 1990 pan counts apart, the
2-second animation derives the unclamped truncated pan speed 453, which
`move_camera` rejects while executing step 0 — the run aborts with the
range error and performs no steps at all, rather than yielding 21. -/
theorem C6_counterexample :
    animate_camera (fun _ _ => false) posA posFar 2 = .error .rangeErr := by
  have h20 : truncInt ((2 : ℚ) * 10) = 20 :=
    truncInt_eval_nonneg (by norm_num) (by norm_num) (by norm_num)
  apply @animate_camera_rangeErr (fun _ _ => false) posA posFar 10 (-1) 0 2000 0 0 2
    (by decide) (by decide) (by decide) (by decide) (by decide) (by decide)
    (by decide) (by decide) (by decide) (by decide) (by decide) (by decide)
    (by omega)
  refine Or.inl ?_
  rw [h20]
  have h453 : truncInt (speed_formula (distPerStep 10 2000 20)) = 453 := by
    rw [speed_formula, distPerStep]
    exact truncInt_eval_nonneg (by norm_num) (by norm_num) (by norm_num)
  rw [h453]
  omega

/-- C6 amended: a 2-second animation at 10 steps per second runs exactly 21
steps, step `i` interpolating at `t = i / 20` in increasing step order,
whenever both truncated formula speeds pass `move_camera`'s `[-24, 24]`
check; otherwise the interleaved run aborts at step 0 with the range
`ValueError` and yields no steps. -/
theorem C6_plan_step_count (fail : Nat → Nat → Bool) (start stop : Position)
    (sp st sz ep et ez : Int)
    (hsp : decode start.pan = some sp) (hst : decode start.tilt = some st)
    (hsz : decode start.zoom = some sz)
    (hep : decode stop.pan = some ep) (het : decode stop.tilt = some et)
    (hez : decode stop.zoom = some ez)
    (bsp : -32768 ≤ sp ∧ sp ≤ 32767) (bst : -32768 ≤ st ∧ st ≤ 32767)
    (bsz : -32768 ≤ sz ∧ sz ≤ 32767)
    (bep : -32768 ≤ ep ∧ ep ≤ 32767) (bet : -32768 ≤ et ∧ et ≤ 32767)
    (bez : -32768 ≤ ez ∧ ez ≤ 32767) :
    ((-24 ≤ truncInt (speed_formula (distPerStep sp ep 20)) ∧
      truncInt (speed_formula (distPerStep sp ep 20)) ≤ 24) →
     (-24 ≤ truncInt (speed_formula (distPerStep st et 20)) ∧
      truncInt (speed_formula (distPerStep st et 20)) ≤ 24) →
      ∃ recs, animate_camera fail start stop 2 = .ok recs ∧ recs.length = 21 ∧
        ∀ i (h : i < recs.length), (recs.get ⟨i, h⟩).t = (i : ℚ) / 20) ∧
    ((¬ (-24 ≤ truncInt (speed_formula (distPerStep sp ep 20)) ∧
         truncInt (speed_formula (distPerStep sp ep 20)) ≤ 24) ∨
      ¬ (-24 ≤ truncInt (speed_formula (distPerStep st et 20)) ∧
         truncInt (speed_formula (distPerStep st et 20)) ≤ 24)) →
      animate_camera fail start stop 2 = .error .rangeErr) := by
  have h20 : truncInt ((2 : ℚ) * 10) = 20 :=
    truncInt_eval_nonneg (by norm_num) (by norm_num) (by norm_num)
  constructor
  · intro hps hts
    rw [← h20] at hps hts
    have hok := animate_camera_ok fail hsp hst hsz hep het hez bsp bst bsz bep bet bez
      (by omega) hps hts
    refine ⟨_, hok, ?_, ?_⟩
    · simp [pyRange, h20]
    · intro i h
      simp only [pyRange, h20] at h ⊢
      simp only [List.get_eq_getElem, List.getElem_map, List.getElem_range, expectedStep, h20]
      norm_num
  · intro hout
    rw [← h20] at hout
    exact animate_camera_rangeErr fail hsp hst hsz hep het hez bsp bst bsz bep bet bez
      (by omega) hout

/-- Witness for C6 amended at two concrete stored positions 10 pan counts
and 6 tilt counts apart, whose derived truncated speeds -21 and -22 pass
the range check. -/
theorem C6_witness :
    ∃ recs, animate_camera (fun _ _ => false) posA posB 2 = .ok recs ∧
      recs.length = 21 ∧
      ∀ i (h : i < recs.length), (recs.get ⟨i, h⟩).t = (i : ℚ) / 20 :=
  (@C6_plan_step_count (fun _ _ => false) posA posB 10 (-1) 0 0 5 256
    (by decide) (by decide) (by decide) (by decide) (by decide) (by decide)
    (by decide) (by decide) (by decide) (by decide) (by decide) (by decide)).1
    (by
      have h : truncInt (speed_formula (distPerStep 10 0 20)) = -21 := by
        rw [speed_formula, distPerStep]
        exact truncInt_eval_neg (by norm_num) (by norm_num) (by norm_num)
      omega)
    (by
      have h : truncInt (speed_formula (distPerStep (-1) 5 20)) = -22 := by
        rw [speed_formula, distPerStep]
        exact truncInt_eval_neg (by norm_num) (by norm_num) (by norm_num)
      omega)

/-- C7 is false as stated: `"0a0b"` (four hex digits instead of the
format's eight), the tab-separated `"0a\t0b"` (whose whitespace
`bytes.fromhex` skips), and the empty string are all malformed inputs of
the wrong length, yet `decode` silently returns an integer instead of
raising. -/
theorem C7_counterexample :
    decode "0a0b" = some (-85) ∧ decode "0a\t0b" = some (-85) ∧
      decode "" = some 0 ∧ (stripSpaces "0a0b").length = 4 := by
  refine ⟨by decide, by decide, by decide, by decide⟩

/-- C7 amended: `decode` rejects any input containing a character that is
neither a hex digit nor ASCII whitespace; `bytes.fromhex` skips ASCII
whitespace between byte pairs; and on input with no whitespace left after
space-stripping, `decode` fails exactly when a non-hex character occurs or
the digit count is not a multiple of 4 — every all-hex input whose digit
count is divisible by 4, whatever its length, is silently decoded. -/
theorem C7_decode_malformed :
    (∀ s, (∃ c ∈ stripSpaces s, pyWhitespace c = false ∧ hexVal c = none) →
      decode s = none) ∧
    (∀ (c : Char) (cs : List Char), pyWhitespace c = true →
      fromhexNibbles (c :: cs) = fromhexNibbles cs) ∧
    (∀ s, (∀ c ∈ stripSpaces s, pyWhitespace c = false) →
      (decode s = none ↔
        (∃ c ∈ stripSpaces s, hexVal c = none) ∨ (stripSpaces s).length % 4 ≠ 0)) := by
  refine ⟨?_, fun c cs h => fromhexNibbles_skip cs h, ?_⟩
  · intro s hbad
    obtain ⟨c, hc, hcw, hcx⟩ := hbad
    unfold decode
    cases hf : fromhexNibbles (stripSpaces s) with
    | none => rfl
    | some ns =>
      rcases fromhexNibbles_chars (stripSpaces s) ns hf c hc with hw | hx
      · rw [hw] at hcw
        cases hcw
      · rw [hcx] at hx
        cases hx
  · intro s hws
    unfold decode
    rw [fromhexNibbles_pure (stripSpaces s) hws]
    have hchar := parseHexList_eq_none_iff (stripSpaces s)
    by_cases h2 : (stripSpaces s).length % 2 = 0
    · rw [if_pos h2]
      cases hp : parseHexList (stripSpaces s) with
      | none =>
        simp [hchar.mp hp]
      | some ns =>
        have hlen := parseHexList_length hp
        have hnone : ¬ ∃ c ∈ stripSpaces s, hexVal c = none := by
          rw [← hchar]
          simp [hp]
        dsimp only
        rw [oddIndexed_length]
        simp only [hnone, false_or, ← hlen]
        split_ifs with h4
        · simp
          omega
        · simp
          omega
    · rw [if_neg h2]
      have hbad2 : (stripSpaces s).length % 4 ≠ 0 := by omega
      simp [hbad2]

/-- Witness for C7 amended: a non-hex input is rejected, and whitespace is
skipped ahead of a byte pair. -/
theorem C7_witness :
    decode "zz" = none ∧ fromhexNibbles [ '\t', '0', 'a'] = fromhexNibbles [ '0', 'a'] :=
  ⟨C7_decode_malformed.1 "zz" ⟨'z', by decide, rfl, rfl⟩,
   C7_decode_malformed.2.1 '\t' [ '0', 'a'] rfl⟩

/-- C8 is false as stated: a negative duration does not raise any
`InvalidParameter` error — `animate_camera` on a -1-second request silently
returns having iterated over an empty range. -/
theorem C8_counterexample :
    animate_camera (fun _ _ => false) posA posB (-1) = .ok [] :=
  @animate_camera_empty (fun _ _ => false) posA posB 10 (-1) 0 5 (-1)
    (by decide) (by decide) (by decide) (by decide)
    (by
      have h : truncInt ((-1 : ℚ) * 10) = -10 :=
        truncInt_eval_neg (by norm_num) (by norm_num) (by norm_num)
      omega)

/-- C8 amended: the code validates nothing: for a negative duration whose
truncated step count is at most -1 the loop body never runs and the call
returns an empty trace with no error, and for a duration whose truncated
step count is 0 it fails with `ZeroDivisionError` — never with an
`InvalidParameter` error (and `stepsPerSecond` is the hard-coded constant
10, which can never be non-positive). -/
theorem C8_no_validation (fail : Nat → Nat → Bool) (start stop : Position)
    (sp st ep et : Int) (seconds : ℚ)
    (hsp : decode start.pan = some sp) (hst : decode start.tilt = some st)
    (hep : decode stop.pan = some ep) (het : decode stop.tilt = some et)
    (hneg : seconds < 0) :
    (truncInt (seconds * 10) ≤ -1 → animate_camera fail start stop seconds = .ok []) ∧
    (truncInt (seconds * 10) = 0 →
      animate_camera fail start stop seconds = .error .divZero) :=
  ⟨fun h => animate_camera_empty fail hsp hst hep het h,
   fun h => animate_camera_divzero fail hsp hep h⟩

/-- Witness for C8 amended at durations -1 and -1/20. -/
theorem C8_witness :
    animate_camera (fun _ _ => false) posA posZero (-1) = .ok [] ∧
    animate_camera (fun _ _ => false) posA posZero (-1 / 20) = .error .divZero :=
  ⟨(@C8_no_validation (fun _ _ => false) posA posZero 10 (-1) 0 0 (-1)
      (by decide) (by decide) (by decide) (by decide) (by norm_num)).1
    (by
      have h : truncInt ((-1 : ℚ) * 10) = -10 :=
        truncInt_eval_neg (by norm_num) (by norm_num) (by norm_num)
      omega),
   (@C8_no_validation (fun _ _ => false) posA posZero 10 (-1) 0 0 (-1 / 20)
      (by decide) (by decide) (by decide) (by decide) (by norm_num)).2
    (truncInt_eval_neg (by norm_num) (by norm_num) (by norm_num))⟩

/-- C9: transmission failures are non-fatal per step in `move.py`'s driver:
up to the recorded send outcomes, the driver behaves identically for every
transport-failure oracle (same steps, same positions, same command bytes,
no early abort), and every returned trace records for step `i` exactly the
send outcomes the oracle dictates — the report of that step's failure. -/
theorem C9_transport_failure_nonfatal (f g : Nat → Nat → Bool) (start stop : Position)
    (seconds : ℚ) :
    ((animate_camera f start stop seconds).map (List.map eraseSent) =
      (animate_camera g start stop seconds).map (List.map eraseSent)) ∧
    (∀ recs, animate_camera f start stop seconds = .ok recs →
      ∀ i (hr : i < recs.length), (recs.get ⟨i, hr⟩).sent = sentPattern (f i)) :=
  ⟨animate_camera_fail_congr f g start stop seconds,
   fun _ h => animate_camera_sent h⟩

/-- Witness for C9: a run whose first send of step 0 fails is observably
identical (up to send outcomes) to a run with a perfect transport, and its
trace reports the failure for step 0. -/
theorem C9_witness :
    (animate_camera (fun i k => i == 0 && k == 0) posZero posZero (1 / 10)).map
        (List.map eraseSent) =
      (animate_camera (fun _ _ => false) posZero posZero (1 / 10)).map
        (List.map eraseSent) ∧
    (((pyRange 2).map (expectedStep (fun i k => i == 0 && k == 0) 0 0 0 0 0 0 1)).get
        ⟨0, by simp [pyRange]⟩).sent =
      sentPattern ((fun (i k : Nat) => i == 0 && k == 0) 0) := by
  have h1 : truncInt ((1 / 10 : ℚ) * 10) = 1 :=
    truncInt_eval_nonneg (by norm_num) (by norm_num) (by norm_num)
  have hspd : truncInt (speed_formula (distPerStep 0 0 1)) = -24 := by
    rw [speed_formula, distPerStep]
    exact truncInt_eval_neg (by norm_num) (by norm_num) (by norm_num)
  have hps : -24 ≤ truncInt (speed_formula (distPerStep 0 0 (truncInt ((1 / 10 : ℚ) * 10)))) ∧
      truncInt (speed_formula (distPerStep 0 0 (truncInt ((1 / 10 : ℚ) * 10)))) ≤ 24 := by
    rw [h1]
    omega
  have hok := @animate_camera_ok (fun i k => i == 0 && k == 0) posZero posZero
    0 0 0 0 0 0 (1 / 10)
    (by decide) (by decide) (by decide) (by decide) (by decide) (by decide)
    (by decide) (by decide) (by decide) (by decide) (by decide) (by decide)
    (by omega) hps hps
  rw [h1] at hok
  exact ⟨(C9_transport_failure_nonfatal (fun i k => i == 0 && k == 0) (fun _ _ => false)
      posZero posZero (1 / 10)).1,
    (C9_transport_failure_nonfatal (fun i k => i == 0 && k == 0) (fun _ _ => false)
      posZero posZero (1 / 10)).2 _ hok 0 (by simp [pyRange])⟩

/-- C10: for 16-bit-range positions and `t` in `[0, 1]`, every decoded axis
of the interpolated position stays inside the closed interval between the
decoded start and end values of that axis — interpolation never overshoots
an endpoint. -/
theorem C10_no_overshoot (start stop : Position) (sp st sz ep et ez : Int)
    (hsp : decode start.pan = some sp) (hst : decode start.tilt = some st)
    (hsz : decode start.zoom = some sz)
    (hep : decode stop.pan = some ep) (het : decode stop.tilt = some et)
    (hez : decode stop.zoom = some ez)
    (bsp : -32768 ≤ sp ∧ sp ≤ 32767) (bst : -32768 ≤ st ∧ st ≤ 32767)
    (bsz : -32768 ≤ sz ∧ sz ≤ 32767)
    (bep : -32768 ≤ ep ∧ ep ≤ 32767) (bet : -32768 ≤ et ∧ et ≤ 32767)
    (bez : -32768 ≤ ez ∧ ez ≤ 32767)
    (t : ℚ) (h0 : 0 ≤ t) (h1 : t ≤ 1) :
    ∃ pos, interpolate_positions start stop t = .ok pos ∧
      (∃ vp, decode pos.pan = some vp ∧ min sp ep ≤ vp ∧ vp ≤ max sp ep) ∧
      (∃ vt, decode pos.tilt = some vt ∧ min st et ≤ vt ∧ vt ≤ max st et) ∧
      (∃ vz, decode pos.zoom = some vz ∧ min sz ez ≤ vz ∧ vz ≤ max sz ez) := by
  obtain ⟨hp1, hp2⟩ := interpValue_range bsp.1 bsp.2 bep.1 bep.2 h0 h1
  obtain ⟨ht1, ht2⟩ := interpValue_range bst.1 bst.2 bet.1 bet.2 h0 h1
  obtain ⟨hz1, hz2⟩ := interpValue_range bsz.1 bsz.2 bez.1 bez.2 h0 h1
  exact ⟨interpPos sp ep st et sz ez t,
    interpolate_positions_ok hsp hst hsz hep het hez bsp bst bsz bep bet bez h0 h1,
    ⟨interpValue sp ep t, decode_encodeRaw hp1 hp2,
      (interpValue_mem h0 h1).1, (interpValue_mem h0 h1).2⟩,
    ⟨interpValue st et t, decode_encodeRaw ht1 ht2,
      (interpValue_mem h0 h1).1, (interpValue_mem h0 h1).2⟩,
    ⟨interpValue sz ez t, decode_encodeRaw hz1 hz2,
      (interpValue_mem h0 h1).1, (interpValue_mem h0 h1).2⟩⟩

/-- Witness for C10 at the midpoint of two concrete stored positions. -/
theorem C10_witness :
    ∃ pos, interpolate_positions posA posB (1 / 2) = .ok pos ∧
      (∃ vp, decode pos.pan = some vp ∧ min 10 0 ≤ vp ∧ vp ≤ max 10 0) ∧
      (∃ vt, decode pos.tilt = some vt ∧ min (-1) 5 ≤ vt ∧ vt ≤ max (-1) 5) ∧
      (∃ vz, decode pos.zoom = some vz ∧ min 0 256 ≤ vz ∧ vz ≤ max 0 256) :=
  @C10_no_overshoot posA posB 10 (-1) 0 0 5 256
    (by decide) (by decide) (by decide) (by decide) (by decide) (by decide)
    (by decide) (by decide) (by decide) (by decide) (by decide) (by decide)
    (1 / 2) (by norm_num) (by norm_num)

end PTZ
